import Mathlib

/-!
# Inbound rules of a Heroku private space

A shallow embedding of `heroku/resource_heroku_space_inbound_rule.go`:
the three resource callbacks (create, read, delete), the schema declared
with them, and the slice-of-pointers code that builds the list handed to the
remote replace call.

Conventions of the embedding.

* The Heroku client is a record of two state-passing functions over an
  arbitrary service state.
* Every callback returns the Go `error` (`none` is `nil`), the resource data
  after the call, the service state after the call and the events it issued
  (lock, unlock and the remote calls), in order.
* `[]*struct` values are lists of optional addresses into an explicit memory;
  `nil` is `none`.  A `for i, r := range xs` loop has ONE variable `r` for the
  whole loop, the semantics of the Go releases this code was written for
  (before Go 1.22), so `&r` is the same address in every iteration.
* The request body is the pointer slice read through memory at the moment of
  the call; a `nil` entry is sent as JSON `null`.
-/

namespace Heroku

/-! ## Data model -/

/-- The anonymous struct with fields `Action` and `Source` (also `type Rule`). -/
structure Rule where
  Action : String
  Source : String
deriving DecidableEq, Repr

/-- The `Space` field of `heroku.InboundRuleset`; only `Name` is read. -/
structure SpaceRef where
  Name : String
deriving DecidableEq, Repr

/-- The part of `heroku.InboundRuleset` the callbacks read. -/
structure InboundRuleset where
  Space : SpaceRef
  Rules : List Rule
deriving DecidableEq, Repr

/-- The fields of `schema.ResourceData` the callbacks read and write. -/
structure ResourceData where
  Id : String
  space : String
  action : String
  source : String
deriving DecidableEq, Repr

/-- The errors built with `fmt.Errorf`, one constructor per format string,
carrying the arguments that are in scope. -/
inductive Error where
  | creating (source space cause : String)
  | reading (source space cause : String)
  | notFound (space action source : String)
  | deleting (source space cause : String)
  | removing (source space cause : String)
deriving DecidableEq, Repr

/-- What a callback does that is visible outside it. -/
inductive Event where
  | lock (key : String)
  | unlock (key : String)
  | current (space : String)
  | create (space : String) (rules : List (Option Rule))
deriving DecidableEq, Repr

/-- The two methods of `*heroku.Service` the callbacks call. -/
structure Service (σ : Type) where
  InboundRulesetCurrent : String → σ → Except String InboundRuleset × σ
  InboundRulesetCreate : String → List (Option Rule) → σ → Except String InboundRuleset × σ

/-- Result of a callback. -/
structure Outcome (σ : Type) where
  err : Option Error
  d : ResourceData
  svc : σ
  trace : List Event

/-! ## Memory and pointer slices -/

abbrev Addr := Nat

/-- Memory cells holding rule structs; an address is an index. -/
structure Mem where
  cells : List Rule
deriving DecidableEq, Repr

def Mem.empty : Mem := ⟨[]⟩

/-- A fresh cell holding `v`. -/
def Mem.alloc (m : Mem) (v : Rule) : Addr × Mem :=
  (m.cells.length, ⟨m.cells ++ [v]⟩)

def Mem.store (m : Mem) (a : Addr) (v : Rule) : Mem :=
  ⟨m.cells.set a v⟩

def Mem.load (m : Mem) (a : Addr) : Option Rule :=
  m.cells.get? a

/-- The slice of pointers as the JSON encoder sees it at the call. -/
def marshal (m : Mem) (rules : List (Option Addr)) : List (Option Rule) :=
  rules.map (fun p => p.bind m.load)

/-- Iterations of `for i, r := range xs { rules[i] = &r }` from index `i`
on, with the loop variable `r` living at address `a`. -/
def rangeAddrFrom (a : Addr) : List Rule → Nat → Mem → List (Option Addr) → Mem × List (Option Addr)
  | [], _, m, rules => (m, rules)
  | x :: xs, i, m, rules => rangeAddrFrom a xs (i + 1) (m.store a x) (rules.set i (some a))

/-- The loop `for i, r := range xs { rules[i] = &r }`. -/
def rangeAddr (xs : List Rule) (m : Mem) (rules : List (Option Addr)) : Mem × List (Option Addr) :=
  let (a, m1) := m.alloc ⟨"", ""⟩
  rangeAddrFrom a xs 0 m1 rules

/-! ## The callbacks -/

/-- The loop `for _, r := range rules` with the test
`r.Action == action && r.Source == source`: the first rule that passes. -/
def firstMatch (action source : String) : List Rule → Option Rule
  | [] => none
  | r :: rs =>
    if r.Action = action ∧ r.Source = source then some r else firstMatch action source rs

/-- The loop that sets `index` in the delete callback; `none` is `-1`. -/
def matchIndexFrom (action source : String) : List Rule → Nat → Option Nat
  | [], _ => none
  | r :: rs, i =>
    if r.Action = action ∧ r.Source = source then some i
    else matchIndexFrom action source rs (i + 1)

/-- The list the create callback hands to `InboundRulesetCreate` when the
fetched rules are `fetched`: `make` with length `len + 1`, the copy loop, then
`append` of a pointer to the new rule. -/
def createRequest (fetched : List Rule) (action source : String) : List (Option Rule) :=
  let rules0 : List (Option Addr) := List.replicate (fetched.length + 1) none
  let (m1, rules1) := rangeAddr fetched Mem.empty rules0
  let (p, m2) := m1.alloc ⟨action, source⟩
  let rules2 := rules1 ++ [some p]
  marshal m2 rules2

/-- The list the delete callback hands to `InboundRulesetCreate` when the
fetched rules are `fetched` and the matching index is `index`: `make` with
length `len`, the copy loop, `append(rules[:index], rules[index+1:]...)`, and
the default rule when nothing is left. -/
def deleteRequest (fetched : List Rule) (index : Nat) : List (Option Rule) :=
  let rules0 : List (Option Addr) := List.replicate fetched.length none
  let (m1, rules1) := rangeAddr fetched Mem.empty rules0
  let rules2 := rules1.take index ++ rules1.drop (index + 1)
  let (m2, rules3) :=
    if rules2.length = 0 then
      let (p, m) := m1.alloc ⟨"allow", "0.0.0.0/0"⟩
      (m, rules2 ++ [some p])
    else (m1, rules2)
  marshal m2 rules3

def resourceHerokuSpaceInboundRuleRead {σ : Type} (client : Service σ)
    (d : ResourceData) (s : σ) : Outcome σ :=
  let spaceIdentity := d.space
  let action := d.action
  let source := d.source
  match client.InboundRulesetCurrent spaceIdentity s with
  | (.error err, s1) =>
    ⟨some (.reading source spaceIdentity err), d, s1, [.current spaceIdentity]⟩
  | (.ok ruleset, s1) =>
    match firstMatch action source ruleset.Rules with
    | some r =>
      ⟨none, ⟨r.Source ++ " " ++ r.Action, ruleset.Space.Name, r.Action, r.Source⟩, s1,
        [.current spaceIdentity]⟩
    | none =>
      ⟨some (.notFound spaceIdentity action source), d, s1, [.current spaceIdentity]⟩

/-- Body of the create callback, between `Lock` and the deferred `Unlock`. -/
def createBody {σ : Type} (client : Service σ) (d : ResourceData) (s : σ) : Outcome σ :=
  let spaceIdentity := d.space
  let action := d.action
  let source := d.source
  match client.InboundRulesetCurrent spaceIdentity s with
  | (.error err, s1) =>
    ⟨some (.creating source spaceIdentity err), d, s1, [.current spaceIdentity]⟩
  | (.ok ruleset, s1) =>
    match firstMatch action source ruleset.Rules with
    | some _ => ⟨none, d, s1, [.current spaceIdentity]⟩
    | none =>
      let body := createRequest ruleset.Rules action source
      match client.InboundRulesetCreate spaceIdentity body s1 with
      | (.error err, s2) =>
        ⟨some (.creating source spaceIdentity err), d, s2,
          [.current spaceIdentity, .create spaceIdentity body]⟩
      | (.ok _, s2) =>
        let o := resourceHerokuSpaceInboundRuleRead client d s2
        ⟨o.err, o.d, o.svc, [.current spaceIdentity, .create spaceIdentity body] ++ o.trace⟩

def resourceHerokuSpaceInboundRuleCreate {σ : Type} (client : Service σ)
    (d : ResourceData) (s : σ) : Outcome σ :=
  let o := createBody client d s
  ⟨o.err, o.d, o.svc, [.lock d.space] ++ o.trace ++ [.unlock d.space]⟩

/-- Body of the delete callback, between `Lock` and the deferred `Unlock`. -/
def deleteBody {σ : Type} (client : Service σ) (d : ResourceData) (s : σ) : Outcome σ :=
  let spaceIdentity := d.space
  let action := d.action
  let source := d.source
  match client.InboundRulesetCurrent spaceIdentity s with
  | (.error err, s1) =>
    ⟨some (.deleting source spaceIdentity err), d, s1, [.current spaceIdentity]⟩
  | (.ok ruleset, s1) =>
    match matchIndexFrom action source ruleset.Rules 0 with
    | none => ⟨none, d, s1, [.current spaceIdentity]⟩
    | some index =>
      let body := deleteRequest ruleset.Rules index
      match client.InboundRulesetCreate spaceIdentity body s1 with
      | (.error err, s2) =>
        ⟨some (.removing source spaceIdentity err), d, s2,
          [.current spaceIdentity, .create spaceIdentity body]⟩
      | (.ok _, s2) =>
        ⟨none, ⟨"", d.space, d.action, d.source⟩, s2,
          [.current spaceIdentity, .create spaceIdentity body]⟩

def resourceHerokuSpaceInboundRuleDelete {σ : Type} (client : Service σ)
    (d : ResourceData) (s : σ) : Outcome σ :=
  let o := deleteBody client d s
  ⟨o.err, o.d, o.svc, [.lock d.space] ++ o.trace ++ [.unlock d.space]⟩

/-! ## The resource and its schema -/

/-- The check `validation.StringInSlice(valid, false)`: the value is one of
`valid`, compared exactly (case is not ignored). -/
def StringInSlice (valid : List String) (v : String) : Bool :=
  valid.contains v

/-- The part of `schema.Resource` that is declared in the source: the three
callbacks and, per attribute of the schema, its `ValidateFunc`. -/
structure Resource (σ : Type) where
  Create : Service σ → ResourceData → σ → Outcome σ
  Read : Service σ → ResourceData → σ → Outcome σ
  Delete : Service σ → ResourceData → σ → Outcome σ
  validateAction : String → Bool
  validateSource : String → Bool

/-- The resource as declared: the callbacks and the two `ValidateFunc`s of the
schema.  `validateCIDRNetworkAddress` is defined in another file of the
package and is a parameter here.  The declaration only names the checks; it is
the framework, not a callback, that runs them. -/
def resourceHerokuSpaceInboundRule {σ : Type} (validateCIDRNetworkAddress : String → Bool) :
    Resource σ where
  Create := resourceHerokuSpaceInboundRuleCreate
  Read := resourceHerokuSpaceInboundRuleRead
  Delete := resourceHerokuSpaceInboundRuleDelete
  validateAction := StringInSlice ["allow", "deny"]
  validateSource := validateCIDRNetworkAddress

/-! ## An in-memory service -/

/-- State of a service that keeps one ruleset and returns on
`InboundRulesetCurrent` what the last `InboundRulesetCreate` stored. -/
structure FakeRemote where
  Name : String
  Rules : List Rule
deriving DecidableEq, Repr

/-- An element of the request body as it is read back into a struct value:
JSON `null` leaves the zero value. -/
def decodeRule : Option Rule → Rule
  | some r => r
  | none => ⟨"", ""⟩

/-- The in-memory service: both calls succeed for every space identifier. -/
def fakeService : Service FakeRemote where
  InboundRulesetCurrent := fun _ s => (.ok ⟨⟨s.Name⟩, s.Rules⟩, s)
  InboundRulesetCreate := fun _ body s =>
    (.ok ⟨⟨s.Name⟩, body.map decodeRule⟩, ⟨s.Name, body.map decodeRule⟩)

/-- The test `r.Action == action && r.Source == source`. -/
def Rule.matches (r : Rule) (action source : String) : Prop :=
  r.Action = action ∧ r.Source = source

instance (r : Rule) (action source : String) : Decidable (r.matches action source) := by
  unfold Rule.matches; infer_instance

/-! ## Concrete inputs -/

/-- A space holding two rules. -/
def twoRules : FakeRemote :=
  ⟨"tftest1", [⟨"allow", "10.0.0.0/8"⟩, ⟨"deny", "10.1.0.0/16"⟩]⟩

/-- A space holding the two rules of the acceptance test. -/
def testRules : FakeRemote :=
  ⟨"tftest1", [⟨"allow", "8.8.8.8/32"⟩, ⟨"allow", "8.8.8.0/24"⟩]⟩

/-- A space holding one rule. -/
def oneRule : FakeRemote :=
  ⟨"tftest1", [⟨"allow", "8.8.8.8/32"⟩]⟩

/-- A new resource (no identity yet) for the rule `allow 8.8.8.8/32`. -/
def allowDns : ResourceData :=
  ⟨"", "tftest1", "allow", "8.8.8.8/32"⟩

/-- A CIDR check that accepts the sources of the acceptance test only. -/
def testCIDR (v : String) : Bool :=
  ["8.8.8.8/32", "8.8.8.0/24"].contains v

/-- A resource for the rule `deny 10.1.0.0/16`. -/
def denyTen : ResourceData :=
  ⟨"10.1.0.0/16 deny", "tftest1", "deny", "10.1.0.0/16"⟩

/-! ## Lemmas on the loops -/

theorem firstMatch_eq_none {action source : String} {rules : List Rule} :
    firstMatch action source rules = none ↔ ∀ r ∈ rules, ¬ r.matches action source := by
  induction rules with
  | nil => simp [firstMatch]
  | cons x xs ih =>
    by_cases h : x.Action = action ∧ x.Source = source
    · simp [firstMatch, h, Rule.matches]
    · simp only [firstMatch, h, if_false, ih, List.mem_cons, forall_eq_or_imp, Rule.matches]
      simp [Rule.matches] at h ⊢

theorem firstMatch_eq_some {action source : String} {rules : List Rule} {r : Rule}
    (h : firstMatch action source rules = some r) :
    r = ⟨action, source⟩ ∧ r ∈ rules := by
  induction rules with
  | nil => simp [firstMatch] at h
  | cons x xs ih =>
    by_cases hx : x.Action = action ∧ x.Source = source
    · simp only [firstMatch, hx, and_self, if_true, Option.some.injEq] at h
      subst h
      obtain ⟨a, b⟩ := x
      simp only at hx
      simp [hx.1, hx.2]
    · simp only [firstMatch, hx, if_false] at h
      exact ⟨(ih h).1, List.mem_cons_of_mem _ (ih h).2⟩

theorem firstMatch_of_mem {action source : String} {rules : List Rule}
    (h : (⟨action, source⟩ : Rule) ∈ rules) :
    firstMatch action source rules = some ⟨action, source⟩ := by
  cases hf : firstMatch action source rules with
  | none => exact absurd ⟨rfl, rfl⟩ (firstMatch_eq_none.1 hf _ h)
  | some r => rw [(firstMatch_eq_some hf).1]

theorem set_replicate_append (a : Addr) (i n : Nat) :
    (List.replicate i (some a) ++ List.replicate (n + 1) (none : Option Addr)).set i (some a)
      = List.replicate (i + 1) (some a) ++ List.replicate n none := by
  induction i with
  | zero => simp [List.replicate_succ]
  | succ i ih =>
    rw [List.replicate_succ, List.cons_append, List.set_cons_succ, ih]
    simp [List.replicate_succ]

theorem rangeAddrFrom_replicate (xs : List Rule) (i k : Nat) (c : Rule) :
    rangeAddrFrom 0 xs i ⟨[c]⟩
        (List.replicate i (some 0) ++ List.replicate (xs.length + k) none)
      = (⟨[xs.getLastD c]⟩,
          List.replicate (i + xs.length) (some 0) ++ List.replicate k none) := by
  induction xs generalizing i c with
  | nil => simp [rangeAddrFrom]
  | cons x xs ih =>
    have h : (x :: xs).length + k = (xs.length + k) + 1 := by simp; omega
    rw [h, rangeAddrFrom, set_replicate_append]
    have hs : Mem.store ⟨[c]⟩ 0 x = ⟨[x]⟩ := rfl
    rw [hs, ih (i + 1) x, List.getLastD_cons]
    have h2 : i + 1 + xs.length = i + (x :: xs).length := by simp; omega
    rw [h2]

theorem rangeAddr_empty (xs : List Rule) (k : Nat) :
    rangeAddr xs Mem.empty (List.replicate (xs.length + k) none)
      = (⟨[xs.getLastD ⟨"", ""⟩]⟩,
          List.replicate xs.length (some 0) ++ List.replicate k none) := by
  have h := rangeAddrFrom_replicate xs 0 k ⟨"", ""⟩
  simp only [List.replicate_zero, List.nil_append, Nat.zero_add] at h
  exact h

/-- Closed form of the create request: every copied entry holds the LAST
fetched rule, a `nil` entry follows, and the new rule is last. -/
theorem createRequest_eq (fetched : List Rule) (action source : String) :
    createRequest fetched action source
      = List.replicate fetched.length (some (fetched.getLastD ⟨"", ""⟩))
          ++ [none, some ⟨action, source⟩] := by
  unfold createRequest
  dsimp only
  rw [rangeAddr_empty fetched 1]
  simp [Mem.alloc, marshal, Mem.load]

/-- Closed form of the delete request. -/
theorem deleteRequest_eq (fetched : List Rule) (index : Nat) (h : index < fetched.length) :
    deleteRequest fetched index
      = if fetched.length = 1 then [some ⟨"allow", "0.0.0.0/0"⟩]
        else List.replicate (fetched.length - 1) (some (fetched.getLastD ⟨"", ""⟩)) := by
  unfold deleteRequest
  have h0 := rangeAddr_empty fetched 0
  simp only [Nat.add_zero, List.replicate_zero, List.append_nil] at h0
  dsimp only
  rw [h0]
  have hl : (List.replicate fetched.length (some 0)).take index
      ++ (List.replicate fetched.length (some 0)).drop (index + 1)
      = List.replicate (fetched.length - 1) (some (0 : Addr)) := by
    rw [List.take_replicate, List.drop_replicate, List.append_replicate_replicate]
    congr 1
    omega
  simp only [hl, List.length_replicate]
  by_cases h1 : fetched.length = 1
  · simp [h1, Mem.alloc, marshal, Mem.load]
  · have h2 : ¬ (fetched.length - 1 = 0) := by omega
    simp [h1, h2, marshal, Mem.load]

theorem firstMatch_first {action source : String} {rules : List Rule} {r : Rule}
    (h : firstMatch action source rules = some r) :
    ∃ i : Nat, rules[i]? = some r ∧
      ∀ j : Nat, j < i → ∀ x : Rule, rules[j]? = some x → ¬ x.matches action source := by
  induction rules with
  | nil => simp [firstMatch] at h
  | cons x xs ih =>
    by_cases hx : x.Action = action ∧ x.Source = source
    · simp only [firstMatch, hx, and_self, if_true, Option.some.injEq] at h
      exact ⟨0, by simp [h], fun j hj => absurd hj (Nat.not_lt_zero j)⟩
    · simp only [firstMatch, hx, if_false] at h
      obtain ⟨i, hi, hlt⟩ := ih h
      refine ⟨i + 1, by simpa using hi, ?_⟩
      intro j hj y hy
      cases j with
      | zero =>
        simp only [List.getElem?_cons_zero, Option.some.injEq] at hy
        subst hy
        exact hx
      | succ j =>
        simp only [List.getElem?_cons_succ] at hy
        exact hlt j (by omega) y hy

theorem matchIndexFrom_eq_none {action source : String} {rules : List Rule} {i : Nat} :
    matchIndexFrom action source rules i = none ↔ ∀ r ∈ rules, ¬ r.matches action source := by
  induction rules generalizing i with
  | nil => simp [matchIndexFrom]
  | cons x xs ih =>
    by_cases h : x.Action = action ∧ x.Source = source
    · simp [matchIndexFrom, h, Rule.matches]
    · simp only [matchIndexFrom, h, if_false, ih, List.mem_cons, forall_eq_or_imp, Rule.matches]
      simp [Rule.matches] at h ⊢

theorem matchIndexFrom_eq_some {action source : String} {rules : List Rule} {i k : Nat}
    (h : matchIndexFrom action source rules i = some k) :
    i ≤ k ∧ k - i < rules.length ∧
      (∃ r : Rule, rules[k - i]? = some r ∧ r.matches action source) ∧
      ∀ j : Nat, j < k - i → ∀ x : Rule, rules[j]? = some x → ¬ x.matches action source := by
  induction rules generalizing i with
  | nil => simp [matchIndexFrom] at h
  | cons x xs ih =>
    by_cases hx : x.Action = action ∧ x.Source = source
    · simp only [matchIndexFrom, hx, and_self, if_true, Option.some.injEq] at h
      subst h
      refine ⟨Nat.le_refl _, by simp, ⟨x, by simp, hx⟩, ?_⟩
      intro j hj
      simp at hj
    · simp only [matchIndexFrom, hx, if_false] at h
      obtain ⟨h1, h2, ⟨r, hr, hm⟩, h4⟩ := ih h
      have e : k - i = (k - (i + 1)) + 1 := by omega
      refine ⟨by omega, by simp only [List.length_cons]; omega, ⟨r, ?_, hm⟩, ?_⟩
      · rw [e, List.getElem?_cons_succ]
        exact hr
      · intro j hj y hy
        cases j with
        | zero =>
          simp only [List.getElem?_cons_zero, Option.some.injEq] at hy
          subst hy
          exact hx
        | succ j =>
          simp only [List.getElem?_cons_succ] at hy
          exact h4 j (by omega) y hy

/-! ## The callbacks, case by case -/

section cases

variable {σ : Type} (client : Service σ) (d : ResourceData) (s s1 : σ) (ruleset : InboundRuleset)

theorem read_of_match {r : Rule}
    (hf : client.InboundRulesetCurrent d.space s = (.ok ruleset, s1))
    (hm : firstMatch d.action d.source ruleset.Rules = some r) :
    resourceHerokuSpaceInboundRuleRead client d s
      = ⟨none, ⟨r.Source ++ " " ++ r.Action, ruleset.Space.Name, r.Action, r.Source⟩, s1,
          [.current d.space]⟩ := by
  simp [resourceHerokuSpaceInboundRuleRead, hf, hm]

theorem read_of_noMatch
    (hf : client.InboundRulesetCurrent d.space s = (.ok ruleset, s1))
    (hm : firstMatch d.action d.source ruleset.Rules = none) :
    resourceHerokuSpaceInboundRuleRead client d s
      = ⟨some (.notFound d.space d.action d.source), d, s1, [.current d.space]⟩ := by
  simp [resourceHerokuSpaceInboundRuleRead, hf, hm]

theorem read_of_fetchError {err : String}
    (hf : client.InboundRulesetCurrent d.space s = (.error err, s1)) :
    resourceHerokuSpaceInboundRuleRead client d s
      = ⟨some (.reading d.source d.space err), d, s1, [.current d.space]⟩ := by
  simp [resourceHerokuSpaceInboundRuleRead, hf]

theorem create_of_match {r : Rule}
    (hf : client.InboundRulesetCurrent d.space s = (.ok ruleset, s1))
    (hm : firstMatch d.action d.source ruleset.Rules = some r) :
    resourceHerokuSpaceInboundRuleCreate client d s
      = ⟨none, d, s1, [.lock d.space, .current d.space, .unlock d.space]⟩ := by
  simp [resourceHerokuSpaceInboundRuleCreate, createBody, hf, hm]

theorem delete_of_noMatch
    (hf : client.InboundRulesetCurrent d.space s = (.ok ruleset, s1))
    (hm : matchIndexFrom d.action d.source ruleset.Rules 0 = none) :
    resourceHerokuSpaceInboundRuleDelete client d s
      = ⟨none, d, s1, [.lock d.space, .current d.space, .unlock d.space]⟩ := by
  simp [resourceHerokuSpaceInboundRuleDelete, deleteBody, hf, hm]

theorem delete_of_fetchError {err : String}
    (hf : client.InboundRulesetCurrent d.space s = (.error err, s1)) :
    resourceHerokuSpaceInboundRuleDelete client d s
      = ⟨some (.deleting d.source d.space err), d, s1,
          [.lock d.space, .current d.space, .unlock d.space]⟩ := by
  simp [resourceHerokuSpaceInboundRuleDelete, deleteBody, hf]

theorem delete_trace_of_match {index : Nat}
    (hf : client.InboundRulesetCurrent d.space s = (.ok ruleset, s1))
    (hm : matchIndexFrom d.action d.source ruleset.Rules 0 = some index) :
    (resourceHerokuSpaceInboundRuleDelete client d s).trace
      = [.lock d.space, .current d.space,
          .create d.space (deleteRequest ruleset.Rules index), .unlock d.space] := by
  simp only [resourceHerokuSpaceInboundRuleDelete, deleteBody, hf, hm]
  cases client.InboundRulesetCreate d.space (deleteRequest ruleset.Rules index) s1 with
  | mk e s2 => cases e <;> rfl

end cases

theorem read_err_cases {σ : Type} (client : Service σ) (d : ResourceData) (s : σ) :
    (resourceHerokuSpaceInboundRuleRead client d s).err = none ∨
      (∃ cause, (resourceHerokuSpaceInboundRuleRead client d s).err
        = some (.reading d.source d.space cause)) ∨
      (resourceHerokuSpaceInboundRuleRead client d s).err
        = some (.notFound d.space d.action d.source) := by
  rcases hf : client.InboundRulesetCurrent d.space s with ⟨res, s1⟩
  cases res with
  | error e =>
    rw [read_of_fetchError client d s s1 hf]
    exact Or.inr (Or.inl ⟨e, rfl⟩)
  | ok ruleset =>
    cases hm : firstMatch d.action d.source ruleset.Rules with
    | none =>
      rw [read_of_noMatch client d s s1 ruleset hf hm]
      exact Or.inr (Or.inr rfl)
    | some r =>
      rw [read_of_match client d s s1 ruleset hf hm]
      exact Or.inl rfl

theorem create_trace_starts_with_fetch {σ : Type} (client : Service σ) (d : ResourceData)
    (s : σ) :
    ∃ rest, (resourceHerokuSpaceInboundRuleCreate client d s).trace
      = .lock d.space :: .current d.space :: rest := by
  rcases hf : client.InboundRulesetCurrent d.space s with ⟨res, s1⟩
  cases res with
  | error e =>
    exact ⟨_, by simp [resourceHerokuSpaceInboundRuleCreate, createBody, hf]; rfl⟩
  | ok ruleset =>
    cases hm : firstMatch d.action d.source ruleset.Rules with
    | some r =>
      rw [create_of_match client d s s1 ruleset hf hm]
      exact ⟨_, rfl⟩
    | none =>
      rcases hc : client.InboundRulesetCreate d.space
        (createRequest ruleset.Rules d.action d.source) s1 with ⟨res2, s2⟩
      cases res2 with
      | error e =>
        exact ⟨_, by simp [resourceHerokuSpaceInboundRuleCreate, createBody, hf, hm, hc]; rfl⟩
      | ok r2 =>
        exact ⟨_, by simp [resourceHerokuSpaceInboundRuleCreate, createBody, hf, hm, hc]; rfl⟩

theorem create_err_cases {σ : Type} (client : Service σ) (d : ResourceData) (s : σ) :
    (resourceHerokuSpaceInboundRuleCreate client d s).err = none ∨
      (∃ cause, (resourceHerokuSpaceInboundRuleCreate client d s).err
        = some (.creating d.source d.space cause)) ∨
      (∃ cause, (resourceHerokuSpaceInboundRuleCreate client d s).err
        = some (.reading d.source d.space cause)) ∨
      (resourceHerokuSpaceInboundRuleCreate client d s).err
        = some (.notFound d.space d.action d.source) := by
  rcases hf : client.InboundRulesetCurrent d.space s with ⟨res, s1⟩
  cases res with
  | error e =>
    refine Or.inr (Or.inl ⟨e, ?_⟩)
    simp [resourceHerokuSpaceInboundRuleCreate, createBody, hf]
  | ok ruleset =>
    cases hm : firstMatch d.action d.source ruleset.Rules with
    | some r =>
      rw [create_of_match client d s s1 ruleset hf hm]
      exact Or.inl rfl
    | none =>
      rcases hc : client.InboundRulesetCreate d.space
        (createRequest ruleset.Rules d.action d.source) s1 with ⟨res2, s2⟩
      cases res2 with
      | error e =>
        refine Or.inr (Or.inl ⟨e, ?_⟩)
        simp [resourceHerokuSpaceInboundRuleCreate, createBody, hf, hm, hc]
      | ok r2 =>
        have h : (resourceHerokuSpaceInboundRuleCreate client d s).err
            = (resourceHerokuSpaceInboundRuleRead client d s2).err := by
          simp [resourceHerokuSpaceInboundRuleCreate, createBody, hf, hm, hc]
        rw [h]
        rcases read_err_cases client d s2 with h1 | h1 | h1
        · exact Or.inl h1
        · exact Or.inr (Or.inr (Or.inl h1))
        · exact Or.inr (Or.inr (Or.inr h1))

/-! ## The in-memory service -/

theorem new_rule_mem_createRequest (fetched : List Rule) (action source : String) :
    (⟨action, source⟩ : Rule) ∈ (createRequest fetched action source).map decodeRule := by
  rw [createRequest_eq]
  simp [decodeRule]

theorem create_fake_of_match (d : ResourceData) (s : FakeRemote) {r : Rule}
    (hm : firstMatch d.action d.source s.Rules = some r) :
    resourceHerokuSpaceInboundRuleCreate fakeService d s
      = ⟨none, d, s, [.lock d.space, .current d.space, .unlock d.space]⟩ :=
  create_of_match fakeService d s s ⟨⟨s.Name⟩, s.Rules⟩ rfl hm

theorem create_fake_of_noMatch (d : ResourceData) (s : FakeRemote)
    (hm : firstMatch d.action d.source s.Rules = none) :
    resourceHerokuSpaceInboundRuleCreate fakeService d s
      = ⟨none, ⟨d.source ++ " " ++ d.action, s.Name, d.action, d.source⟩,
          ⟨s.Name, (createRequest s.Rules d.action d.source).map decodeRule⟩,
          [.lock d.space, .current d.space,
            .create d.space (createRequest s.Rules d.action d.source),
            .current d.space, .unlock d.space]⟩ := by
  have hr := read_of_match fakeService d
    (⟨s.Name, (createRequest s.Rules d.action d.source).map decodeRule⟩ : FakeRemote)
    ⟨s.Name, (createRequest s.Rules d.action d.source).map decodeRule⟩
    ⟨⟨s.Name⟩, (createRequest s.Rules d.action d.source).map decodeRule⟩ rfl
    (firstMatch_of_mem (new_rule_mem_createRequest s.Rules d.action d.source))
  simp only [resourceHerokuSpaceInboundRuleCreate, createBody, fakeService, hm] at hr ⊢
  rw [hr]
  rfl

/-! ## Create -/

/-- C1 (evaluation of the code): with the fetched rules
`[allow 10.0.0.0/8, deny 10.1.0.0/16]` and the new rule `allow 8.8.8.8/32`, the
list handed to `InboundRulesetCreate` has four entries, not three: both copied
entries hold the last fetched rule, a `nil` entry follows them, and the new
rule is last. -/
theorem create_request_on_two_rules :
    (resourceHerokuSpaceInboundRuleCreate fakeService allowDns twoRules).trace
      = [.lock "tftest1", .current "tftest1",
          .create "tftest1"
            [some ⟨"deny", "10.1.0.0/16"⟩, some ⟨"deny", "10.1.0.0/16"⟩, none,
              some ⟨"allow", "8.8.8.8/32"⟩],
          .current "tftest1", .unlock "tftest1"] := by
  decide

/-- C5: on the in-memory service, a second create with the same space, action
and source finds the rule (the fetched list has a first match), returns `nil`,
issues the fetch and no `InboundRulesetCreate`, and leaves the service in the
state the first create left it in. -/
theorem create_twice_same_as_once (s : FakeRemote) (d : ResourceData) (id2 : String) :
    (∃ r, firstMatch d.action d.source
        (resourceHerokuSpaceInboundRuleCreate fakeService d s).svc.Rules = some r) ∧
    (resourceHerokuSpaceInboundRuleCreate fakeService ⟨id2, d.space, d.action, d.source⟩
        (resourceHerokuSpaceInboundRuleCreate fakeService d s).svc).err = none ∧
    (resourceHerokuSpaceInboundRuleCreate fakeService ⟨id2, d.space, d.action, d.source⟩
        (resourceHerokuSpaceInboundRuleCreate fakeService d s).svc).trace
      = [.lock d.space, .current d.space, .unlock d.space] ∧
    (resourceHerokuSpaceInboundRuleCreate fakeService ⟨id2, d.space, d.action, d.source⟩
        (resourceHerokuSpaceInboundRuleCreate fakeService d s).svc).svc
      = (resourceHerokuSpaceInboundRuleCreate fakeService d s).svc := by
  have key : ∃ r, firstMatch d.action d.source
      (resourceHerokuSpaceInboundRuleCreate fakeService d s).svc.Rules = some r := by
    cases hm : firstMatch d.action d.source s.Rules with
    | some r => exact ⟨r, by rw [create_fake_of_match d s hm]; exact hm⟩
    | none =>
      rw [create_fake_of_noMatch d s hm]
      exact ⟨_, firstMatch_of_mem (new_rule_mem_createRequest s.Rules d.action d.source)⟩
  obtain ⟨r, hr⟩ := key
  have h2 := create_fake_of_match ⟨id2, d.space, d.action, d.source⟩
    (resourceHerokuSpaceInboundRuleCreate fakeService d s).svc hr
  exact ⟨⟨r, hr⟩, by rw [h2], by rw [h2], by rw [h2]⟩

/-- C8 (evaluation of the code): when the fetched ruleset already holds the
rule, create returns `nil` and leaves the identity of a new resource empty; it
is not `"8.8.8.8/32 allow"`. -/
theorem create_existing_leaves_id_empty :
    (resourceHerokuSpaceInboundRuleCreate fakeService allowDns oneRule).err = none ∧
    (resourceHerokuSpaceInboundRuleCreate fakeService allowDns oneRule).d.Id = "" ∧
    (resourceHerokuSpaceInboundRuleCreate fakeService allowDns oneRule).d.Id
      ≠ allowDns.source ++ " " ++ allowDns.action := by
  decide

/-- C9 (evaluation of the code): on the in-memory service holding
`[allow 8.8.8.8/32, allow 8.8.8.0/24]`, create of `allow 8.8.8.8/32` followed
by create of `deny 10.0.0.0/8` ends with a ruleset that no longer holds
`allow 8.8.8.8/32`. -/
theorem create_sequence_loses_rule :
    (resourceHerokuSpaceInboundRuleCreate fakeService ⟨"", "tftest1", "deny", "10.0.0.0/8"⟩
        (resourceHerokuSpaceInboundRuleCreate fakeService allowDns testRules).svc).svc.Rules
      = [⟨"allow", "8.8.8.0/24"⟩, ⟨"allow", "8.8.8.0/24"⟩, ⟨"", ""⟩, ⟨"deny", "10.0.0.0/8"⟩] ∧
    (⟨"allow", "8.8.8.8/32"⟩ : Rule) ∉
      (resourceHerokuSpaceInboundRuleCreate fakeService ⟨"", "tftest1", "deny", "10.0.0.0/8"⟩
        (resourceHerokuSpaceInboundRuleCreate fakeService allowDns testRules).svc).svc.Rules := by
  decide

/-- C10 (evaluation of the code): called with action `permit` (which the
schema check of `action` rejects) and source `not-a-cidr` on a space holding
`[allow 8.8.8.8/32]`, the create callback does not fail: it fetches, pushes
`[allow 8.8.8.8/32, nil, permit not-a-cidr]`, fetches again and returns `nil`. -/
theorem create_invalid_input_reaches_remote :
    StringInSlice ["allow", "deny"] "permit" = false ∧
    testCIDR "not-a-cidr" = false ∧
    (resourceHerokuSpaceInboundRuleCreate fakeService
        ⟨"", "tftest1", "permit", "not-a-cidr"⟩ oneRule).err = none ∧
    (resourceHerokuSpaceInboundRuleCreate fakeService
        ⟨"", "tftest1", "permit", "not-a-cidr"⟩ oneRule).trace
      = [.lock "tftest1", .current "tftest1",
          .create "tftest1"
            [some ⟨"allow", "8.8.8.8/32"⟩, none, some ⟨"permit", "not-a-cidr"⟩],
          .current "tftest1", .unlock "tftest1"] := by
  decide

/-- C10 (amended): the restriction of `action` to exactly `allow` and `deny`
and the CIDR check of `source` are the `ValidateFunc`s declared in the schema
of the resource; the create callback of the resource is
`resourceHerokuSpaceInboundRuleCreate`, which checks neither: for every action
and source it takes the lock and fetches the ruleset, and what it returns is
`nil` or one of its creating, reading and not-found errors. -/
theorem schema_declares_checks_create_runs_none {σ : Type}
    (validateCIDRNetworkAddress : String → Bool) (client : Service σ)
    (d : ResourceData) (s : σ) :
    (∀ action : String,
      (resourceHerokuSpaceInboundRule validateCIDRNetworkAddress : Resource σ).validateAction
          action = true ↔ (action = "allow" ∨ action = "deny")) ∧
    (resourceHerokuSpaceInboundRule validateCIDRNetworkAddress : Resource σ).validateSource
      = validateCIDRNetworkAddress ∧
    (resourceHerokuSpaceInboundRule validateCIDRNetworkAddress : Resource σ).Create
      = resourceHerokuSpaceInboundRuleCreate ∧
    (∃ rest, (resourceHerokuSpaceInboundRuleCreate client d s).trace
      = .lock d.space :: .current d.space :: rest) ∧
    ((resourceHerokuSpaceInboundRuleCreate client d s).err = none ∨
      (∃ cause, (resourceHerokuSpaceInboundRuleCreate client d s).err
        = some (.creating d.source d.space cause)) ∨
      (∃ cause, (resourceHerokuSpaceInboundRuleCreate client d s).err
        = some (.reading d.source d.space cause)) ∨
      (resourceHerokuSpaceInboundRuleCreate client d s).err
        = some (.notFound d.space d.action d.source)) := by
  refine ⟨?_, rfl, rfl, ?_, ?_⟩
  · intro action
    simp [resourceHerokuSpaceInboundRule, StringInSlice]
  · exact create_trace_starts_with_fetch client d s
  · exact create_err_cases client d s

theorem schema_declares_checks_witness :
    ((resourceHerokuSpaceInboundRule testCIDR : Resource FakeRemote).validateAction "permit" = true
      ↔ ("permit" = "allow" ∨ "permit" = "deny")) ∧
    (∃ rest, (resourceHerokuSpaceInboundRuleCreate fakeService
        ⟨"", "tftest1", "permit", "not-a-cidr"⟩ oneRule).trace
      = .lock "tftest1" :: .current "tftest1" :: rest) :=
  ⟨(schema_declares_checks_create_runs_none testCIDR fakeService
      ⟨"", "tftest1", "permit", "not-a-cidr"⟩ oneRule).1 "permit",
    (schema_declares_checks_create_runs_none testCIDR fakeService
      ⟨"", "tftest1", "permit", "not-a-cidr"⟩ oneRule).2.2.2.1⟩

/-! ## Read -/

/-- C4: read returns the rule-not-found error exactly when the fetch succeeded
and no fetched rule has both the action and the source of the resource; when
the fetch succeeded and some rule matches, read returns `nil` and takes its
values from the first match in fetch order: the identity is
`source + " " + action`, the space is the name in the fetched ruleset, and
action and source are those of the resource. -/
theorem read_notFound_iff_and_first_match {σ : Type} (client : Service σ)
    (d : ResourceData) (s : σ) :
    ((∃ space action source, (resourceHerokuSpaceInboundRuleRead client d s).err
          = some (.notFound space action source)) ↔
      ∃ ruleset s1, client.InboundRulesetCurrent d.space s = (.ok ruleset, s1) ∧
        ∀ r ∈ ruleset.Rules, ¬ r.matches d.action d.source) ∧
    ∀ ruleset s1, client.InboundRulesetCurrent d.space s = (.ok ruleset, s1) →
      (∃ r ∈ ruleset.Rules, r.matches d.action d.source) →
      ∃ (i : Nat) (r : Rule), ruleset.Rules[i]? = some r ∧ r.matches d.action d.source ∧
        (∀ j : Nat, j < i → ∀ x : Rule, ruleset.Rules[j]? = some x →
          ¬ x.matches d.action d.source) ∧
        resourceHerokuSpaceInboundRuleRead client d s
          = ⟨none, ⟨r.Source ++ " " ++ r.Action, ruleset.Space.Name, r.Action, r.Source⟩, s1,
              [.current d.space]⟩ ∧
        (resourceHerokuSpaceInboundRuleRead client d s).d
          = ⟨d.source ++ " " ++ d.action, ruleset.Space.Name, d.action, d.source⟩ := by
  constructor
  · constructor
    · rintro ⟨sp, a, src, he⟩
      rcases hf : client.InboundRulesetCurrent d.space s with ⟨res, s1⟩
      cases res with
      | error e =>
        rw [read_of_fetchError client d s s1 hf] at he
        simp at he
      | ok ruleset =>
        refine ⟨ruleset, s1, rfl, ?_⟩
        cases hm : firstMatch d.action d.source ruleset.Rules with
        | none => exact firstMatch_eq_none.1 hm
        | some r =>
          rw [read_of_match client d s s1 ruleset hf hm] at he
          simp at he
    · rintro ⟨ruleset, s1, hf, hno⟩
      rw [read_of_noMatch client d s s1 ruleset hf (firstMatch_eq_none.2 hno)]
      exact ⟨_, _, _, rfl⟩
  · intro ruleset s1 hf ⟨r0, hr0, hm0⟩
    cases hm : firstMatch d.action d.source ruleset.Rules with
    | none => exact absurd hm0 (firstMatch_eq_none.1 hm r0 hr0)
    | some r =>
      obtain ⟨i, hi, hlt⟩ := firstMatch_first hm
      have hr := (firstMatch_eq_some hm).1
      refine ⟨i, r, hi, ?_, hlt, read_of_match client d s s1 ruleset hf hm, ?_⟩
      · rw [hr]; exact ⟨rfl, rfl⟩
      · rw [read_of_match client d s s1 ruleset hf hm, hr]

/-- C7 (evaluation of the code): on the in-memory service whose space reports
the empty name, create of `allow 8.8.8.8/32` returns `nil` and the read that
follows returns `nil` with the same action and source, but the space it
resolves is the empty string. -/
theorem read_after_create_empty_name :
    (resourceHerokuSpaceInboundRuleCreate fakeService allowDns
        ⟨"", [⟨"allow", "8.8.8.0/24"⟩]⟩).err = none ∧
    (resourceHerokuSpaceInboundRuleRead fakeService allowDns
        (resourceHerokuSpaceInboundRuleCreate fakeService allowDns
          ⟨"", [⟨"allow", "8.8.8.0/24"⟩]⟩).svc).err = none ∧
    (resourceHerokuSpaceInboundRuleRead fakeService allowDns
        (resourceHerokuSpaceInboundRuleCreate fakeService allowDns
          ⟨"", [⟨"allow", "8.8.8.0/24"⟩]⟩).svc).d
      = ⟨"8.8.8.8/32 allow", "", "allow", "8.8.8.8/32"⟩ := by
  decide

/-- C7 (amended): on the in-memory service, create for
`(space, action, source)` returns `nil`, and a read for the same
`(space, action, source)` on the state create left then returns `nil` with the
same action and source, the identity `source + " " + action`, and as space the
name the service reports for the space, whatever that name is. -/
theorem read_after_create (s : FakeRemote) (d : ResourceData) (id2 : String) :
    (resourceHerokuSpaceInboundRuleCreate fakeService d s).err = none ∧
    (resourceHerokuSpaceInboundRuleRead fakeService ⟨id2, d.space, d.action, d.source⟩
        (resourceHerokuSpaceInboundRuleCreate fakeService d s).svc).err = none ∧
    (resourceHerokuSpaceInboundRuleRead fakeService ⟨id2, d.space, d.action, d.source⟩
        (resourceHerokuSpaceInboundRuleCreate fakeService d s).svc).d
      = ⟨d.source ++ " " ++ d.action, s.Name, d.action, d.source⟩ ∧
    (resourceHerokuSpaceInboundRuleRead fakeService ⟨id2, d.space, d.action, d.source⟩
        (resourceHerokuSpaceInboundRuleCreate fakeService d s).svc).d.space = s.Name := by
  have key : (resourceHerokuSpaceInboundRuleCreate fakeService d s).err = none ∧
      (resourceHerokuSpaceInboundRuleCreate fakeService d s).svc.Name = s.Name ∧
      (⟨d.action, d.source⟩ : Rule) ∈
        (resourceHerokuSpaceInboundRuleCreate fakeService d s).svc.Rules := by
    cases hm : firstMatch d.action d.source s.Rules with
    | some r =>
      rw [create_fake_of_match d s hm]
      have hr := firstMatch_eq_some hm
      exact ⟨rfl, rfl, hr.1 ▸ hr.2⟩
    | none =>
      rw [create_fake_of_noMatch d s hm]
      exact ⟨rfl, rfl, new_rule_mem_createRequest s.Rules d.action d.source⟩
  obtain ⟨h1, h2, h3⟩ := key
  have hr := read_of_match fakeService ⟨id2, d.space, d.action, d.source⟩
    (resourceHerokuSpaceInboundRuleCreate fakeService d s).svc
    (resourceHerokuSpaceInboundRuleCreate fakeService d s).svc
    ⟨⟨(resourceHerokuSpaceInboundRuleCreate fakeService d s).svc.Name⟩,
      (resourceHerokuSpaceInboundRuleCreate fakeService d s).svc.Rules⟩ rfl
    (firstMatch_of_mem h3)
  refine ⟨h1, by rw [hr], by rw [hr, h2], ?_⟩
  rw [hr]
  exact h2

theorem read_after_create_witness :
    (resourceHerokuSpaceInboundRuleCreate fakeService allowDns twoRules).err = none ∧
    (resourceHerokuSpaceInboundRuleRead fakeService ⟨"", "tftest1", "allow", "8.8.8.8/32"⟩
        (resourceHerokuSpaceInboundRuleCreate fakeService allowDns twoRules).svc).err = none ∧
    (resourceHerokuSpaceInboundRuleRead fakeService ⟨"", "tftest1", "allow", "8.8.8.8/32"⟩
        (resourceHerokuSpaceInboundRuleCreate fakeService allowDns twoRules).svc).d
      = ⟨"8.8.8.8/32" ++ " " ++ "allow", "tftest1", "allow", "8.8.8.8/32"⟩ ∧
    (resourceHerokuSpaceInboundRuleRead fakeService ⟨"", "tftest1", "allow", "8.8.8.8/32"⟩
        (resourceHerokuSpaceInboundRuleCreate fakeService allowDns twoRules).svc).d.space
      = "tftest1" :=
  read_after_create twoRules allowDns ""

theorem read_first_match_witness :
    ∃ (i : Nat) (r : Rule), twoRules.Rules[i]? = some r ∧ r.matches denyTen.action denyTen.source ∧
      (∀ j : Nat, j < i → ∀ x : Rule, twoRules.Rules[j]? = some x →
        ¬ x.matches denyTen.action denyTen.source) ∧
      resourceHerokuSpaceInboundRuleRead fakeService denyTen twoRules
        = ⟨none, ⟨r.Source ++ " " ++ r.Action, "tftest1", r.Action, r.Source⟩, twoRules,
            [.current denyTen.space]⟩ ∧
      (resourceHerokuSpaceInboundRuleRead fakeService denyTen twoRules).d
        = ⟨denyTen.source ++ " " ++ denyTen.action, "tftest1", denyTen.action, denyTen.source⟩ :=
  (read_notFound_iff_and_first_match fakeService denyTen twoRules).2
    ⟨⟨"tftest1"⟩, twoRules.Rules⟩ twoRules rfl ⟨⟨"deny", "10.1.0.0/16"⟩, by decide, by decide⟩

/-! ## Delete -/

/-- C2 (evaluation of the code): with the fetched rules
`[allow 10.0.0.0/8, deny 10.1.0.0/16]`, delete of `deny 10.1.0.0/16` (first
matching index 1) hands `[deny 10.1.0.0/16]` to `InboundRulesetCreate`: the
rule to remove is what is left and `allow 10.0.0.0/8` is gone. -/
theorem delete_request_on_two_rules :
    matchIndexFrom denyTen.action denyTen.source twoRules.Rules 0 = some 1 ∧
    (resourceHerokuSpaceInboundRuleDelete fakeService denyTen twoRules).trace
      = [.lock "tftest1", .current "tftest1",
          .create "tftest1" [some ⟨"deny", "10.1.0.0/16"⟩], .unlock "tftest1"] ∧
    (resourceHerokuSpaceInboundRuleDelete fakeService denyTen twoRules).svc.Rules
      = [⟨"deny", "10.1.0.0/16"⟩] := by
  decide

/-- C3: when the fetched ruleset is one rule and that rule matches the
resource, delete hands exactly `[allow 0.0.0.0/0]` to `InboundRulesetCreate`;
and whatever the service answers, no list that delete hands to
`InboundRulesetCreate` is empty. -/
theorem delete_last_rule_resets_and_request_nonempty {σ : Type} (client : Service σ)
    (d : ResourceData) (s : σ) :
    (∀ (r : Rule) (space : SpaceRef) (s1 : σ),
        client.InboundRulesetCurrent d.space s = (.ok ⟨space, [r]⟩, s1) →
        r.matches d.action d.source →
        (resourceHerokuSpaceInboundRuleDelete client d s).trace
          = [.lock d.space, .current d.space,
              .create d.space [some ⟨"allow", "0.0.0.0/0"⟩], .unlock d.space]) ∧
    ∀ (space : String) (rules : List (Option Rule)),
      Event.create space rules ∈ (resourceHerokuSpaceInboundRuleDelete client d s).trace →
      rules ≠ [] := by
  constructor
  · intro r space s1 hf hm
    have hi : matchIndexFrom d.action d.source [r] 0 = some 0 := by
      have hm2 : r.Action = d.action ∧ r.Source = d.source := hm
      simp [matchIndexFrom, hm2]
    rw [delete_trace_of_match client d s s1 ⟨space, [r]⟩ hf hi]
    rw [deleteRequest_eq [r] 0 (by simp)]
    simp
  · intro space rules hmem
    rcases hf : client.InboundRulesetCurrent d.space s with ⟨res, s1⟩
    cases res with
    | error e =>
      rw [delete_of_fetchError client d s s1 hf] at hmem
      simp at hmem
    | ok ruleset =>
      cases hm : matchIndexFrom d.action d.source ruleset.Rules 0 with
      | none =>
        rw [delete_of_noMatch client d s s1 ruleset hf hm] at hmem
        simp at hmem
      | some index =>
        rw [delete_trace_of_match client d s s1 ruleset hf hm] at hmem
        have hlt : index < ruleset.Rules.length := by
          have := (matchIndexFrom_eq_some hm).2.1
          simpa using this
        simp only [List.mem_cons, Event.create.injEq, List.mem_singleton, reduceCtorEq,
          false_or, or_false, List.not_mem_nil] at hmem
        rw [hmem.2, deleteRequest_eq ruleset.Rules index hlt]
        by_cases h1 : ruleset.Rules.length = 1
        · simp [h1]
        · simp only [h1, if_false]
          intro h0
          have := congrArg List.length h0
          simp at this
          omega

theorem delete_last_rule_witness :
    (resourceHerokuSpaceInboundRuleDelete fakeService allowDns oneRule).trace
      = [.lock allowDns.space, .current allowDns.space,
          .create allowDns.space [some ⟨"allow", "0.0.0.0/0"⟩], .unlock allowDns.space] ∧
    [some (⟨"allow", "0.0.0.0/0"⟩ : Rule)] ≠ [] :=
  ⟨(delete_last_rule_resets_and_request_nonempty fakeService allowDns oneRule).1
      ⟨"allow", "8.8.8.8/32"⟩ ⟨"tftest1"⟩ oneRule rfl (by decide),
    (delete_last_rule_resets_and_request_nonempty fakeService allowDns oneRule).2
      "tftest1" [some ⟨"allow", "0.0.0.0/0"⟩] (by decide)⟩

/-- C6: when the fetch succeeds and no fetched rule matches the resource,
delete returns `nil`, its only remote call is the fetch (no
`InboundRulesetCreate`), the resource data are unchanged and the service is in
the state the fetch returned; on the in-memory service that is the state
before the call. -/
theorem delete_absent_is_noop {σ : Type} (client : Service σ) (d : ResourceData) (s s1 : σ)
    (ruleset : InboundRuleset)
    (hf : client.InboundRulesetCurrent d.space s = (.ok ruleset, s1))
    (hno : ∀ r ∈ ruleset.Rules, ¬ r.matches d.action d.source) :
    (resourceHerokuSpaceInboundRuleDelete client d s).err = none ∧
    (resourceHerokuSpaceInboundRuleDelete client d s).trace
      = [.lock d.space, .current d.space, .unlock d.space] ∧
    (∀ space rules,
      Event.create space rules ∉ (resourceHerokuSpaceInboundRuleDelete client d s).trace) ∧
    (resourceHerokuSpaceInboundRuleDelete client d s).svc = s1 ∧
    (resourceHerokuSpaceInboundRuleDelete client d s).d = d := by
  rw [delete_of_noMatch client d s s1 ruleset hf (matchIndexFrom_eq_none.2 hno)]
  refine ⟨rfl, rfl, ?_, rfl, rfl⟩
  intro space rules
  simp

theorem delete_absent_witness :
    (resourceHerokuSpaceInboundRuleDelete fakeService allowDns twoRules).err = none ∧
    (resourceHerokuSpaceInboundRuleDelete fakeService allowDns twoRules).trace
      = [.lock allowDns.space, .current allowDns.space, .unlock allowDns.space] ∧
    (∀ space rules,
      Event.create space rules ∉
        (resourceHerokuSpaceInboundRuleDelete fakeService allowDns twoRules).trace) ∧
    (resourceHerokuSpaceInboundRuleDelete fakeService allowDns twoRules).svc = twoRules ∧
    (resourceHerokuSpaceInboundRuleDelete fakeService allowDns twoRules).d = allowDns :=
  delete_absent_is_noop fakeService allowDns twoRules twoRules ⟨⟨"tftest1"⟩, twoRules.Rules⟩ rfl
    (by decide)

end Heroku
